import Mathlib

/-
Shallow embedding of label_studio/core/utils/security.py.

Python strings are modelled as `List Char`; `Optional[str]` as
`Option (List Char)`; a Python dict returned by the module as an
association list `List (List Char × List Char)`.  Case-lowering is
modelled by `Char.toLower` (ASCII case mapping, as in the source for
ASCII field names).
-/

/-- Embedding of the Python substring test `needle in hay` on strings:
true iff `needle` occurs contiguously inside `hay`. -/
def strContains (needle : List Char) : List Char → Bool
  | [] => needle.isEmpty
  | c :: rest => needle.isPrefixOf (c :: rest) || strContains needle rest

/-- The frozenset SENSITIVE_FIELDS from security.py: field-name fragments
that mark a field as sensitive. -/
def SENSITIVE_FIELDS : List (List Char) :=
  ["password".data, "token".data, "api_key".data, "apikey".data,
   "secret".data, "credential".data, "auth".data, "authorization".data,
   "access_token".data, "refresh_token".data, "private_key".data,
   "secret_key".data]

/-- Embedding of `is_sensitive_field`: lower-case the field name and test
whether any sensitive fragment occurs in it as a substring. -/
def is_sensitive_field (field_name : List Char) : Bool :=
  let field_lower := field_name.map Char.toLower
  SENSITIVE_FIELDS.any (fun sensitive => strContains sensitive field_lower)

/-- Embedding of the Python tail slice `value[-n:]`: for `n = 0` this is
`value[0:]`, the whole string; for `n ≥ 1` the start index clamps at 0,
giving the last `n` characters (or the whole string when `n ≥ len`). -/
def pyTailSlice (value : List Char) (n : Nat) : List Char :=
  if n = 0 then value else value.drop (value.length - n)

/-- Embedding of `mask_sensitive_value`: `'****'` for an empty or short
value, otherwise asterisks followed by the last `visible_chars`
characters. -/
def mask_sensitive_value (value : List Char) (visible_chars : Nat := 4) : List Char :=
  if value = [] ∨ value.length ≤ visible_chars then "****".data
  else List.replicate (value.length - visible_chars) '*' ++ pyTailSlice value visible_chars

/-- Embedding of `str_value.replace('\r\n', '\\r\\n')`: left-to-right,
non-overlapping replacement of each CRLF pair by the four characters
backslash, r, backslash, n. -/
def replaceCRLF : List Char → List Char
  | [] => []
  | [c] => [c]
  | c :: d :: rest =>
    if c = '\r' ∧ d = '\n' then '\\' :: 'r' :: '\\' :: 'n' :: replaceCRLF rest
    else c :: replaceCRLF (d :: rest)

/-- Embedding of `str_value.replace('\n', '\\n')`. -/
def replaceLF : List Char → List Char
  | [] => []
  | c :: rest =>
    if c = '\n' then '\\' :: 'n' :: replaceLF rest else c :: replaceLF rest

/-- Embedding of `str_value.replace('\r', '\\r')`. -/
def replaceCR : List Char → List Char
  | [] => []
  | c :: rest =>
    if c = '\r' then '\\' :: 'r' :: replaceCR rest else c :: replaceCR rest

/-- Character class at-sign to Z plus backslash to underscore of the
ANSI regex: the Fe bytes 0x40–0x5A and 0x5C–0x5F. -/
def isFeByte (c : Char) : Bool :=
  (0x40 ≤ c.toNat && c.toNat ≤ 0x5A) || (0x5C ≤ c.toNat && c.toNat ≤ 0x5F)

/-- Character class from 0 to question mark in the ANSI regex: CSI
parameter bytes 0x30–0x3F. -/
def isParamByte (c : Char) : Bool :=
  0x30 ≤ c.toNat && c.toNat ≤ 0x3F

/-- Character class from space to slash in the ANSI regex: CSI
intermediate bytes 0x20–0x2F. -/
def isInterByte (c : Char) : Bool :=
  0x20 ≤ c.toNat && c.toNat ≤ 0x2F

/-- Character class at-sign to tilde of the ANSI regex: CSI final bytes
0x40–0x7E. -/
def isFinalByte (c : Char) : Bool :=
  0x40 ≤ c.toNat && c.toNat ≤ 0x7E

/-- Final step of matching a CSI sequence: after the greedy parameter
and intermediate runs, exactly one final byte must follow; return the
remainder after it. -/
def ansiFinish : List Char → Option (List Char)
  | [] => none
  | e :: rest2 => if isFinalByte e then some rest2 else none

/-- After an ESC character, try to match the rest of the regex body:
either one Fe byte, or an opening bracket followed by parameter bytes,
intermediate bytes and one final byte; return the remainder of the
input after the match.  The two alternatives are tried in order; the
star quantifiers are greedy, which is deterministic here because the
three CSI character classes are pairwise disjoint. -/
def ansiMatch : List Char → Option (List Char)
  | [] => none
  | d :: rest =>
    if isFeByte d then some rest
    else if d = '[' then
      ansiFinish ((rest.dropWhile isParamByte).dropWhile isInterByte)
    else none

/-- Fuel-indexed worker for the regex substitution
`ansi_escape.sub('', str_value)`: scan left to right, removing each
leftmost match and continuing after it.  Each step consumes at least
one input character, so fuel = input length suffices. -/
def stripAnsiFuel : Nat → List Char → List Char
  | _, [] => []
  | 0, c :: rest => c :: rest
  | fuel + 1, c :: rest =>
    if c = '\x1B' then
      match ansiMatch rest with
      | some rest2 => stripAnsiFuel fuel rest2
      | none => c :: stripAnsiFuel fuel rest
    else c :: stripAnsiFuel fuel rest

/-- Embedding of the full regex substitution on line 87 of the source:
substitute the empty string for every match of the compiled ANSI
pattern (ESC then one Fe byte, or ESC then a CSI sequence). -/
def stripAnsi (s : List Char) : List Char :=
  stripAnsiFuel s.length s

/-- Embedding of `sanitize_for_logging`: `None` maps to the string
"None"; otherwise escape CRLF, LF and CR, strip ANSI escape sequences,
and truncate to `max_length` characters plus a fixed suffix when too
long. -/
def sanitize_for_logging (value : Option (List Char)) (max_length : Nat := 1000) : List Char :=
  match value with
  | none => "None".data
  | some str_value =>
    let s := stripAnsi (replaceCR (replaceLF (replaceCRLF str_value)))
    if max_length < s.length then s.take max_length ++ "...[truncated]".data
    else s

/-- Embedding of `sanitize_log_input`: alias for `sanitize_for_logging`
with the default `max_length`. -/
def sanitize_log_input (value : Option (List Char)) : List Char :=
  sanitize_for_logging value

/-- A Python exception as seen by `get_safe_exception_message`: only its
type name and its own message text are relevant. -/
structure PyException where
  type_name : List Char
  message : List Char

/-- The `safe_messages` table of `get_safe_exception_message`. -/
def safe_messages : List (List Char × List Char) :=
  [("ConnectionError".data, "Unable to connect to the external service.".data),
   ("TimeoutError".data, "The operation timed out.".data),
   ("PermissionError".data, "Permission denied.".data),
   ("FileNotFoundError".data, "The requested file was not found.".data),
   ("ValidationError".data, "The provided data is invalid.".data),
   ("AuthenticationError".data, "Authentication failed.".data)]

/-- Embedding of `get_safe_exception_message`: look the exception's type
name up in the fixed table; otherwise fall back to a generic message,
with or without the type name according to `include_type`. -/
def get_safe_exception_message (exc : PyException) (include_type : Bool := true) : List Char :=
  match safe_messages.lookup exc.type_name with
  | some msg => msg
  | none =>
    if include_type then
      "An error occurred (".data ++ exc.type_name ++ "). Please try again or contact support.".data
    else
      "An error occurred. Please try again or contact support.".data

/-- Embedding of the Python idiom `detail or default` on an optional
string: `None` and the empty string are falsy and select the default. -/
def pyStrOr (a : Option (List Char)) (default : List Char) : List Char :=
  match a with
  | none => default
  | some s => if s = [] then default else s

/-- The fixed fallback detail message of `create_generic_error_response`. -/
def genericErrorDetail : List Char :=
  "An internal error occurred. Please contact support if the issue persists.".data

/-- Embedding of `create_generic_error_response`: a one-entry mapping
from "detail" to `detail or genericErrorDetail`. -/
def create_generic_error_response (detail : Option (List Char) := none) :
    List (List Char × List Char) :=
  [("detail".data, pyStrOr detail genericErrorDetail)]

theorem strContains_iff (needle hay : List Char) :
    strContains needle hay = true ↔ ∃ p q, hay = p ++ needle ++ q := by
  induction hay with
  | nil =>
    constructor
    · intro h
      have hn : needle = [] := by
        simpa [strContains, List.isEmpty_iff] using h
      exact ⟨[], [], by simp [hn]⟩
    · rintro ⟨p, q, hpq⟩
      have := hpq.symm
      simp only [List.append_eq_nil] at this
      simp [strContains, List.isEmpty_iff, this.1.2]
  | cons c rest ih =>
    constructor
    · intro h
      rcases (by simpa [strContains] using h :
          needle.isPrefixOf (c :: rest) = true ∨ strContains needle rest = true) with hpre | hrest
      · rcases List.isPrefixOf_iff_prefix.mp hpre with ⟨t, ht⟩
        exact ⟨[], t, by simp [← ht]⟩
      · rcases ih.mp hrest with ⟨p, q, hpq⟩
        exact ⟨c :: p, q, by simp [hpq]⟩
    · rintro ⟨p, q, hpq⟩
      cases p with
      | nil =>
        have hpre : needle.isPrefixOf (c :: rest) = true :=
          List.isPrefixOf_iff_prefix.mpr ⟨q, by simpa using hpq.symm⟩
        simp [strContains, hpre]
      | cons a p2 =>
        have h1 : c = a ∧ rest = p2 ++ needle ++ q := by
          simpa using hpq
        have h2 : strContains needle rest = true := ih.mpr ⟨p2, q, h1.2⟩
        simp [strContains, h2]

/-- Claim C9: `is_sensitive_field` returns true exactly when some element
of the sensitive-field set occurs as a substring of the lower-cased field
name; the empty string and "username" both yield false. -/
theorem is_sensitive_field_spec : ∀ field_name : List Char,
    (is_sensitive_field field_name = true ↔
      ∃ s ∈ SENSITIVE_FIELDS, ∃ p q, field_name.map Char.toLower = p ++ s ++ q) ∧
    is_sensitive_field [] = false ∧
    is_sensitive_field "username".data = false := by
  intro f
  refine ⟨?_, by decide, by decide⟩
  simp [is_sensitive_field, List.any_eq_true, strContains_iff]

/-- Claim C2: with `visible_chars = 0` and a non-empty value,
`mask_sensitive_value` returns the whole value after a run of asterisks,
hiding nothing. -/
theorem mask_sensitive_value_zero_visible : ∀ value : List Char, value ≠ [] →
    mask_sensitive_value value 0 = List.replicate value.length '*' ++ value := by
  intro v hv
  have hc : ¬ (v = [] ∨ v.length ≤ 0) := by
    rintro (h | h)
    · exact hv h
    · exact hv (List.length_eq_zero.mp (Nat.le_zero.mp h))
  unfold mask_sensitive_value pyTailSlice
  rw [if_neg hc, if_pos rfl]
  simp

/-- Witness for C2 at the concrete value "abc". -/
theorem mask_sensitive_value_zero_visible_witness :
    mask_sensitive_value "abc".data 0 =
      List.replicate ("abc".data).length '*' ++ "abc".data :=
  mask_sensitive_value_zero_visible "abc".data (by decide)

/-- Claim C4: with the default `visible_chars = 4`, short or empty values
map to the literal "****", and longer values map to asterisks followed by
the last four characters, preserving the length. -/
theorem mask_sensitive_value_default_spec : ∀ value : List Char,
    (value.length ≤ 4 → mask_sensitive_value value = "****".data) ∧
    (4 < value.length →
      mask_sensitive_value value =
        List.replicate (value.length - 4) '*' ++ value.drop (value.length - 4) ∧
      (mask_sensitive_value value).length = value.length) := by
  intro v
  constructor
  · intro h
    simp [mask_sensitive_value, h]
  · intro h
    have hc : ¬ (v = [] ∨ v.length ≤ 4) := by
      rintro (rfl | hle)
      · simp at h
      · omega
    have h4 : (4 : Nat) ≠ 0 := by decide
    constructor
    · unfold mask_sensitive_value pyTailSlice
      rw [if_neg hc, if_neg h4]
    · unfold mask_sensitive_value pyTailSlice
      rw [if_neg hc, if_neg h4, List.length_append, List.length_replicate, List.length_drop]
      omega

/-- Witness for C4 at the concrete values "abc" and "abcdefgh". -/
theorem mask_sensitive_value_default_spec_witness :
    mask_sensitive_value "abc".data = "****".data ∧
    mask_sensitive_value "abcdefgh".data =
      List.replicate ("abcdefgh".data.length - 4) '*' ++
        "abcdefgh".data.drop ("abcdefgh".data.length - 4) ∧
    (mask_sensitive_value "abcdefgh".data).length = "abcdefgh".data.length :=
  ⟨(mask_sensitive_value_default_spec "abc".data).1 (by decide),
   ((mask_sensitive_value_default_spec "abcdefgh".data).2 (by decide)).1,
   ((mask_sensitive_value_default_spec "abcdefgh".data).2 (by decide)).2⟩

/-- Counterexample for claim C1 as stated: the explicitly provided empty
detail string is not returned unchanged; the Python `or` replaces it by
the fixed fallback message. -/
theorem create_generic_error_response_empty_cex :
    create_generic_error_response (some []) = [("detail".data, genericErrorDetail)] ∧
    create_generic_error_response (some []) ≠ [("detail".data, ([] : List Char))] := by
  exact ⟨rfl, by decide⟩

/-- Claim C1 (amended): the response is the single-key mapping on
"detail"; a non-empty explicit detail is returned unchanged, while the
no-value sentinel and the empty string both select the fixed fallback
message. -/
theorem create_generic_error_response_spec : ∀ detail : List Char, detail ≠ [] →
    create_generic_error_response (some detail) = [("detail".data, detail)] ∧
    create_generic_error_response none = [("detail".data, genericErrorDetail)] ∧
    create_generic_error_response (some []) = [("detail".data, genericErrorDetail)] := by
  intro d hd
  refine ⟨?_, rfl, rfl⟩
  simp [create_generic_error_response, pyStrOr, hd]

/-- Witness for C1 (amended) at the concrete detail "oops". -/
theorem create_generic_error_response_spec_witness :
    create_generic_error_response (some "oops".data) = [("detail".data, "oops".data)] ∧
    create_generic_error_response none = [("detail".data, genericErrorDetail)] ∧
    create_generic_error_response (some []) = [("detail".data, genericErrorDetail)] :=
  create_generic_error_response_spec "oops".data (by decide)

/-- Claim C5: for each of the six table keys, `get_safe_exception_message`
returns the table's fixed message, identically for any two exceptions of
that kind and independently of the exception's own message text. -/
theorem get_safe_exception_message_table_fixed : ∀ kind : List Char,
    (kind = "ConnectionError".data ∨ kind = "TimeoutError".data ∨
     kind = "PermissionError".data ∨ kind = "FileNotFoundError".data ∨
     kind = "ValidationError".data ∨ kind = "AuthenticationError".data) →
    ∃ fixed, safe_messages.lookup kind = some fixed ∧
      ∀ (m1 m2 : List Char) (b1 b2 : Bool),
        get_safe_exception_message ⟨kind, m1⟩ b1 = fixed ∧
        get_safe_exception_message ⟨kind, m1⟩ b1 = get_safe_exception_message ⟨kind, m2⟩ b2 := by
  intro k hk
  rcases hk with rfl | rfl | rfl | rfl | rfl | rfl <;>
    exact ⟨_, rfl, fun m1 m2 b1 b2 => ⟨rfl, rfl⟩⟩

/-- Witness for C5 at the key "TimeoutError". -/
theorem get_safe_exception_message_table_fixed_witness :
    ∃ fixed, safe_messages.lookup "TimeoutError".data = some fixed ∧
      ∀ (m1 m2 : List Char) (b1 b2 : Bool),
        get_safe_exception_message ⟨"TimeoutError".data, m1⟩ b1 = fixed ∧
        get_safe_exception_message ⟨"TimeoutError".data, m1⟩ b1 =
          get_safe_exception_message ⟨"TimeoutError".data, m2⟩ b2 :=
  get_safe_exception_message_table_fixed "TimeoutError".data (Or.inr (Or.inl rfl))

/-- Counterexample for claim C3 as stated: for the unrecognized kind named
"error" with `include_type = false` the returned generic fallback does
contain the kind name as a substring. -/
theorem get_safe_exception_message_kindleak_cex :
    safe_messages.lookup "error".data = none ∧
    get_safe_exception_message ⟨"error".data, []⟩ false =
      "An error occurred. Please try again or contact support.".data ∧
    strContains "error".data (get_safe_exception_message ⟨"error".data, []⟩ false) = true :=
  ⟨rfl, rfl, by decide⟩

/-- Claim C3 (amended): for an exception whose kind is not in the table,
`include_type = true` yields the template with the kind name substituted
(so the kind name occurs in the result), and `include_type = false`
yields the fixed generic fallback, which does not depend on the kind
name (the kind name can occur in it only by coinciding with its fixed
text). -/
theorem get_safe_exception_message_unknown_spec : ∀ exc : PyException,
    safe_messages.lookup exc.type_name = none →
    (get_safe_exception_message exc true =
      "An error occurred (".data ++ exc.type_name ++
        "). Please try again or contact support.".data ∧
     ∃ p q, get_safe_exception_message exc true = p ++ exc.type_name ++ q) ∧
    get_safe_exception_message exc false =
      "An error occurred. Please try again or contact support.".data := by
  intro exc h
  have h1 : get_safe_exception_message exc true =
      "An error occurred (".data ++ exc.type_name ++
        "). Please try again or contact support.".data := by
    simp [get_safe_exception_message, h]
  have h2 : get_safe_exception_message exc false =
      "An error occurred. Please try again or contact support.".data := by
    simp [get_safe_exception_message, h]
  exact ⟨⟨h1, ⟨_, _, h1⟩⟩, h2⟩

/-- Witness for C3 (amended) at the unrecognized kind "KeyError". -/
theorem get_safe_exception_message_unknown_spec_witness :
    safe_messages.lookup "KeyError".data = none ∧
    ((get_safe_exception_message ⟨"KeyError".data, []⟩ true =
        "An error occurred (".data ++ "KeyError".data ++
          "). Please try again or contact support.".data ∧
      ∃ p q, get_safe_exception_message ⟨"KeyError".data, []⟩ true =
        p ++ "KeyError".data ++ q) ∧
     get_safe_exception_message ⟨"KeyError".data, []⟩ false =
       "An error occurred. Please try again or contact support.".data) :=
  ⟨by decide, get_safe_exception_message_unknown_spec ⟨"KeyError".data, []⟩ (by decide)⟩

/-- Claim C10: `sanitize_log_input` returns exactly what
`sanitize_for_logging` returns at the default maximum length 1000. -/
theorem sanitize_log_input_delegates : ∀ value : Option (List Char),
    sanitize_log_input value = sanitize_for_logging value 1000 :=
  fun _ => rfl

theorem ansiFinish_length {l rest2 : List Char} (h : ansiFinish l = some rest2) :
    rest2.length < l.length := by
  cases l with
  | nil => simp [ansiFinish] at h
  | cons e r2 =>
    by_cases hf : isFinalByte e = true
    · have : r2 = rest2 := by simpa [ansiFinish, hf] using h
      subst this
      simp
    · simp [ansiFinish, hf] at h

theorem ansiMatch_length {rest rest2 : List Char} (h : ansiMatch rest = some rest2) :
    rest2.length ≤ rest.length := by
  cases rest with
  | nil => simp [ansiMatch] at h
  | cons d tail =>
    simp only [ansiMatch] at h
    by_cases hfe : isFeByte d = true
    · rw [if_pos hfe] at h
      cases h
      simp
    · rw [if_neg hfe] at h
      by_cases hbr : d = '['
      · rw [if_pos hbr] at h
        have h1 : rest2.length < ((tail.dropWhile isParamByte).dropWhile isInterByte).length :=
          ansiFinish_length h
        have h2 : ((tail.dropWhile isParamByte).dropWhile isInterByte).length ≤ tail.length :=
          le_trans (List.dropWhile_sublist _).length_le (List.dropWhile_sublist _).length_le
        simp only [List.length_cons]
        omega
      · rw [if_neg hbr] at h
        cases h

theorem stripAnsiFuel_congr : ∀ (f g : Nat) (s : List Char), s.length ≤ f → s.length ≤ g →
    stripAnsiFuel f s = stripAnsiFuel g s := by
  intro f
  induction f with
  | zero =>
    intro g s hf _
    have hs : s = [] := List.length_eq_zero.mp (Nat.le_zero.mp hf)
    subst hs
    cases g <;> rfl
  | succ f2 ih =>
    intro g s hf hg
    cases s with
    | nil => cases g <;> rfl
    | cons c rest =>
      cases g with
      | zero => simp at hg
      | succ g2 =>
        have hf2 : rest.length ≤ f2 := by simpa using hf
        have hg2 : rest.length ≤ g2 := by simpa using hg
        simp only [stripAnsiFuel]
        by_cases hc : c = '\x1B'
        · rw [if_pos hc, if_pos hc]
          rcases hm : ansiMatch rest with _ | rest2
          · rw [ih g2 rest hf2 hg2]
          · have hlen : rest2.length ≤ rest.length := ansiMatch_length hm
            exact ih g2 rest2 (le_trans hlen hf2) (le_trans hlen hg2)
        · rw [if_neg hc, if_neg hc, ih g2 rest hf2 hg2]

theorem stripAnsi_cons_not_esc {c : Char} (h : c ≠ '\x1B') (rest : List Char) :
    stripAnsi (c :: rest) = c :: stripAnsi rest := by
  unfold stripAnsi
  simp only [List.length_cons, stripAnsiFuel]
  rw [if_neg h]

theorem stripAnsi_esc_matched {rest rest2 : List Char} (h : ansiMatch rest = some rest2) :
    stripAnsi ('\x1B' :: rest) = stripAnsi rest2 := by
  have e1 : stripAnsi ('\x1B' :: rest) =
      match ansiMatch rest with
      | some r2 => stripAnsiFuel rest.length r2
      | none => '\x1B' :: stripAnsiFuel rest.length rest := rfl
  rw [e1, h]
  exact stripAnsiFuel_congr rest.length rest2.length rest2 (ansiMatch_length h) le_rfl

theorem stripAnsi_esc_unmatched {rest : List Char} (h : ansiMatch rest = none) :
    stripAnsi ('\x1B' :: rest) = '\x1B' :: stripAnsi rest := by
  have e1 : stripAnsi ('\x1B' :: rest) =
      match ansiMatch rest with
      | some r2 => stripAnsiFuel rest.length r2
      | none => '\x1B' :: stripAnsiFuel rest.length rest := rfl
  rw [e1, h]
  rfl

theorem dropWhile_append_all {p : Char → Bool} : ∀ {l1 l2 : List Char},
    (∀ c ∈ l1, p c = true) → List.dropWhile p (l1 ++ l2) = List.dropWhile p l2 := by
  intro l1
  induction l1 with
  | nil => intro l2 _; rfl
  | cons a t ih =>
    intro l2 h
    have ha : p a = true := h a (by simp)
    simp only [List.cons_append, List.dropWhile_cons, ha, if_true]
    exact ih (fun c hc => h c (by simp [hc]))

theorem isParamByte_false_of_inter {c : Char} (h : isInterByte c = true) :
    isParamByte c = false := by
  simp only [isInterByte, Bool.and_eq_true, decide_eq_true_eq] at h
  simp only [isParamByte, Bool.and_eq_false_iff, decide_eq_false_iff_not]
  left
  omega

theorem isParamByte_false_of_final {c : Char} (h : isFinalByte c = true) :
    isParamByte c = false := by
  simp only [isFinalByte, Bool.and_eq_true, decide_eq_true_eq] at h
  simp only [isParamByte, Bool.and_eq_false_iff, decide_eq_false_iff_not]
  right
  omega

theorem isInterByte_false_of_final {c : Char} (h : isFinalByte c = true) :
    isInterByte c = false := by
  simp only [isFinalByte, Bool.and_eq_true, decide_eq_true_eq] at h
  simp only [isInterByte, Bool.and_eq_false_iff, decide_eq_false_iff_not]
  right
  omega

/-- A string that matches the full ANSI pattern of the source regex:
ESC then a single Fe byte, or ESC then a CSI introducer, parameter
bytes, intermediate bytes and one final byte. -/
def isAnsiSeq (m : List Char) : Prop :=
  (∃ f, m = ['\x1B', f] ∧ isFeByte f = true) ∨
  (∃ ps mids last, m = '\x1B' :: '[' :: (ps ++ mids ++ [last]) ∧
    (∀ c ∈ ps, isParamByte c = true) ∧
    (∀ c ∈ mids, isInterByte c = true) ∧ isFinalByte last = true)

theorem ansiMatch_csi {ps mids : List Char} {last : Char} (t : List Char)
    (hps : ∀ c ∈ ps, isParamByte c = true) (hmid : ∀ c ∈ mids, isInterByte c = true)
    (hlast : isFinalByte last = true) :
    ansiMatch (('[' :: (ps ++ mids ++ [last])) ++ t) = some t := by
  have e1 : ansiMatch (('[' :: (ps ++ mids ++ [last])) ++ t) =
      ansiFinish (((((ps ++ mids ++ [last]) ++ t)).dropWhile isParamByte).dropWhile
        isInterByte) := rfl
  have e2 : (ps ++ mids ++ [last]) ++ t = ps ++ (mids ++ last :: t) := by
    simp
  have h2 : List.dropWhile isParamByte (mids ++ last :: t) = mids ++ last :: t := by
    cases mids with
    | nil => simp [List.dropWhile_cons, isParamByte_false_of_final hlast]
    | cons a t2 =>
      have ha : isParamByte a = false := isParamByte_false_of_inter (hmid a (by simp))
      simp [List.dropWhile_cons, ha]
  have h3 : List.dropWhile isInterByte (mids ++ last :: t) = last :: t := by
    rw [dropWhile_append_all hmid]
    simp [List.dropWhile_cons, isInterByte_false_of_final hlast]
  rw [e1, e2, dropWhile_append_all hps, h2, h3]
  simp [ansiFinish, hlast]

/-- Claim C7: the sanitizer removes every substring matching the ANSI
pattern of the source regex (each matching sequence at the scan position
is deleted and scanning resumes after it), and on the concrete input
ESC bracket 31 m, red, ESC bracket 0 m it returns exactly "red". -/
theorem stripAnsi_removes_matches :
    (∀ m t : List Char, isAnsiSeq m → stripAnsi (m ++ t) = stripAnsi t) ∧
    sanitize_for_logging (some "\x1b[31mred\x1b[0m".data) 1000 = "red".data := by
  constructor
  · intro m t hm
    rcases hm with ⟨f, rfl, hf⟩ | ⟨ps, mids, last, rfl, hps, hmid, hlast⟩
    · have h : ansiMatch (f :: t) = some t := by simp [ansiMatch, hf]
      simpa using stripAnsi_esc_matched h
    · have h : ansiMatch (('[' :: (ps ++ mids ++ [last])) ++ t) = some t :=
        ansiMatch_csi t hps hmid hlast
      simpa [List.cons_append] using stripAnsi_esc_matched h
  · decide

/-- Witness for C7: a concrete CSI sequence prepended to "red" is
removed by the sanitizer's ANSI-stripping pass. -/
theorem stripAnsi_removes_matches_witness :
    isAnsiSeq ['\x1B', '[', '3', '1', 'm'] ∧
    stripAnsi (['\x1B', '[', '3', '1', 'm'] ++ "red".data) = stripAnsi "red".data :=
  have hseq : isAnsiSeq ['\x1B', '[', '3', '1', 'm'] :=
    Or.inr ⟨['3', '1'], [], 'm', by decide, by decide, by decide, by decide⟩
  ⟨hseq, stripAnsi_removes_matches.1 _ "red".data hseq⟩

/-- Boolean character-membership test, used to state the absence of raw
control characters in sanitizer output. -/
def hasChar (c : Char) (l : List Char) : Bool :=
  l.any (fun d => d = c)

theorem hasChar_eq_false_iff {c : Char} {l : List Char} :
    hasChar c l = false ↔ c ∉ l := by
  constructor
  · intro h hc
    have ht : hasChar c l = true := by
      simp only [hasChar, List.any_eq_true, decide_eq_true_eq]
      exact ⟨c, hc, rfl⟩
    rw [h] at ht
    cases ht
  · intro h
    cases hx : hasChar c l with
    | false => rfl
    | true =>
      exfalso
      rcases (by simpa only [hasChar, List.any_eq_true, decide_eq_true_eq] using hx :
        ∃ d ∈ l, d = c) with ⟨d, hd, hdc⟩
      exact h (hdc ▸ hd)

theorem replaceLF_no_lf : ∀ s : List Char, '\n' ∉ replaceLF s := by
  intro s
  induction s with
  | nil => intro hmem; simp [replaceLF] at hmem
  | cons c rest ih =>
    intro hmem
    by_cases hc : c = '\n'
    · subst hc
      rw [show replaceLF ('\n' :: rest) = '\\' :: 'n' :: replaceLF rest from rfl] at hmem
      rcases List.mem_cons.mp hmem with h1 | hmem2
      · exact absurd h1 (by decide)
      · rcases List.mem_cons.mp hmem2 with h1 | hmem3
        · exact absurd h1 (by decide)
        · exact ih hmem3
    · rw [show replaceLF (c :: rest) =
          if c = '\n' then '\\' :: 'n' :: replaceLF rest else c :: replaceLF rest from rfl,
        if_neg hc] at hmem
      rcases List.mem_cons.mp hmem with h1 | hmem2
      · exact hc h1.symm
      · exact ih hmem2

theorem replaceCR_no_cr : ∀ s : List Char, '\r' ∉ replaceCR s := by
  intro s
  induction s with
  | nil => intro hmem; simp [replaceCR] at hmem
  | cons c rest ih =>
    intro hmem
    by_cases hc : c = '\r'
    · subst hc
      rw [show replaceCR ('\r' :: rest) = '\\' :: 'r' :: replaceCR rest from rfl] at hmem
      rcases List.mem_cons.mp hmem with h1 | hmem2
      · exact absurd h1 (by decide)
      · rcases List.mem_cons.mp hmem2 with h1 | hmem3
        · exact absurd h1 (by decide)
        · exact ih hmem3
    · rw [show replaceCR (c :: rest) =
          if c = '\r' then '\\' :: 'r' :: replaceCR rest else c :: replaceCR rest from rfl,
        if_neg hc] at hmem
      rcases List.mem_cons.mp hmem with h1 | hmem2
      · exact hc h1.symm
      · exact ih hmem2

theorem mem_replaceCR : ∀ (s : List Char) (c : Char),
    c ∈ replaceCR s → c = '\\' ∨ c = 'r' ∨ c ∈ s := by
  intro s
  induction s with
  | nil => intro c h; simp [replaceCR] at h
  | cons a rest ih =>
    intro c h
    by_cases ha : a = '\r'
    · subst ha
      rw [show replaceCR ('\r' :: rest) = '\\' :: 'r' :: replaceCR rest from rfl] at h
      rcases List.mem_cons.mp h with h1 | h2
      · exact Or.inl h1
      · rcases List.mem_cons.mp h2 with h3 | h4
        · exact Or.inr (Or.inl h3)
        · rcases ih c h4 with h5 | h5 | h5
          · exact Or.inl h5
          · exact Or.inr (Or.inl h5)
          · exact Or.inr (Or.inr (List.mem_cons_of_mem _ h5))
    · rw [show replaceCR (a :: rest) =
          if a = '\r' then '\\' :: 'r' :: replaceCR rest else a :: replaceCR rest from rfl,
        if_neg ha] at h
      rcases List.mem_cons.mp h with h1 | h2
      · exact Or.inr (Or.inr (h1 ▸ List.mem_cons_self a rest))
      · rcases ih c h2 with h5 | h5 | h5
        · exact Or.inl h5
        · exact Or.inr (Or.inl h5)
        · exact Or.inr (Or.inr (List.mem_cons_of_mem _ h5))

theorem escape_no_ctl (s : List Char) :
    '\n' ∉ replaceCR (replaceLF (replaceCRLF s)) ∧
    '\r' ∉ replaceCR (replaceLF (replaceCRLF s)) := by
  refine ⟨?_, replaceCR_no_cr _⟩
  intro h
  rcases mem_replaceCR _ _ h with h1 | h1 | h1
  · exact absurd h1 (by decide)
  · exact absurd h1 (by decide)
  · exact replaceLF_no_lf _ h1

/-- Claim C8: after the three in-order replacements (CRLF, then LF, then
CR) the intermediate string contains no raw newline and no raw carriage
return, and on the concrete input line1-newline-line2 the sanitizer
returns the string with a literal backslash-n and no real newline. -/
theorem sanitize_escapes_newlines :
    (∀ s : List Char,
      hasChar '\n' (replaceCR (replaceLF (replaceCRLF s))) = false ∧
      hasChar '\r' (replaceCR (replaceLF (replaceCRLF s))) = false) ∧
    sanitize_for_logging (some "line1\nline2".data) 1000 = "line1\\nline2".data ∧
    hasChar '\n' (sanitize_for_logging (some "line1\nline2".data) 1000) = false := by
  refine ⟨fun s => ⟨?_, ?_⟩, by decide, by decide⟩
  · exact hasChar_eq_false_iff.mpr (escape_no_ctl s).1
  · exact hasChar_eq_false_iff.mpr (escape_no_ctl s).2

theorem replaceCRLF_id : ∀ s : List Char, '\r' ∉ s → replaceCRLF s = s := by
  intro s
  induction s with
  | nil => intro _; rfl
  | cons a rest ih =>
    intro h
    cases rest with
    | nil => rfl
    | cons b rest2 =>
      have ha : a ≠ '\r' := fun heq => h (heq ▸ List.mem_cons_self a _)
      have hcond : ¬(a = '\r' ∧ b = '\n') := fun hab => ha hab.1
      rw [show replaceCRLF (a :: b :: rest2) =
          if a = '\r' ∧ b = '\n' then '\\' :: 'r' :: '\\' :: 'n' :: replaceCRLF rest2
          else a :: replaceCRLF (b :: rest2) from rfl,
        if_neg hcond, ih (fun hm => h (List.mem_cons_of_mem a hm))]

theorem replaceLF_id : ∀ s : List Char, '\n' ∉ s → replaceLF s = s := by
  intro s
  induction s with
  | nil => intro _; rfl
  | cons a rest ih =>
    intro h
    have ha : a ≠ '\n' := fun heq => h (heq ▸ List.mem_cons_self a _)
    rw [show replaceLF (a :: rest) =
        if a = '\n' then '\\' :: 'n' :: replaceLF rest else a :: replaceLF rest from rfl,
      if_neg ha, ih (fun hm => h (List.mem_cons_of_mem a hm))]

theorem replaceCR_id : ∀ s : List Char, '\r' ∉ s → replaceCR s = s := by
  intro s
  induction s with
  | nil => intro _; rfl
  | cons a rest ih =>
    intro h
    have ha : a ≠ '\r' := fun heq => h (heq ▸ List.mem_cons_self a _)
    rw [show replaceCR (a :: rest) =
        if a = '\r' then '\\' :: 'r' :: replaceCR rest else a :: replaceCR rest from rfl,
      if_neg ha, ih (fun hm => h (List.mem_cons_of_mem a hm))]

theorem stripAnsiFuel_id : ∀ (f : Nat) (s : List Char), '\x1B' ∉ s → stripAnsiFuel f s = s := by
  intro f
  induction f with
  | zero => intro s _; cases s <;> rfl
  | succ f2 ih =>
    intro s h
    cases s with
    | nil => rfl
    | cons c rest =>
      have hc : c ≠ '\x1B' := fun heq => h (heq ▸ List.mem_cons_self c rest)
      rw [show stripAnsiFuel (f2 + 1) (c :: rest) =
          if c = '\x1B' then
            (match ansiMatch rest with
            | some rest2 => stripAnsiFuel f2 rest2
            | none => c :: stripAnsiFuel f2 rest)
          else c :: stripAnsiFuel f2 rest from rfl,
        if_neg hc, ih rest (fun hm => h (List.mem_cons_of_mem c hm))]

theorem stripAnsi_id {s : List Char} (h : '\x1B' ∉ s) : stripAnsi s = s :=
  stripAnsiFuel_id s.length s h

theorem replicate_x_pipeline :
    stripAnsi (replaceCR (replaceLF (replaceCRLF (List.replicate 2000 'x')))) =
      List.replicate 2000 'x' := by
  have mem_repl : ∀ c : Char, c ∈ (List.replicate 2000 'x' : List Char) → c = 'x' :=
    fun c hc => (List.mem_replicate.mp hc).2
  have hcr : '\r' ∉ (List.replicate 2000 'x' : List Char) :=
    fun hm => absurd (mem_repl _ hm) (by decide)
  have hlf : '\n' ∉ (List.replicate 2000 'x' : List Char) :=
    fun hm => absurd (mem_repl _ hm) (by decide)
  have hesc : '\x1B' ∉ (List.replicate 2000 'x' : List Char) :=
    fun hm => absurd (mem_repl _ hm) (by decide)
  rw [replaceCRLF_id _ hcr, replaceLF_id _ hlf, replaceCR_id _ hcr, stripAnsi_id hesc]

/-- Claim C6: whenever the escaped and ANSI-stripped string is longer
than the maximum length, the sanitizer truncates it to its first
`max_length` characters and appends the fixed truncation suffix; on
2000 copies of x with maximum length 1000 the output length is
1000 plus the suffix length and the output ends with the suffix. -/
theorem sanitize_truncates :
    (∀ (s : List Char) (max_length : Nat),
      max_length < (stripAnsi (replaceCR (replaceLF (replaceCRLF s)))).length →
      sanitize_for_logging (some s) max_length =
        (stripAnsi (replaceCR (replaceLF (replaceCRLF s)))).take max_length ++
          "...[truncated]".data) ∧
    (sanitize_for_logging (some (List.replicate 2000 'x')) 1000).length =
      1000 + ("...[truncated]".data).length ∧
    "...[truncated]".data <:+ sanitize_for_logging (some (List.replicate 2000 'x')) 1000 := by
  have hgen : ∀ (s : List Char) (ml : Nat),
      ml < (stripAnsi (replaceCR (replaceLF (replaceCRLF s)))).length →
      sanitize_for_logging (some s) ml =
        (stripAnsi (replaceCR (replaceLF (replaceCRLF s)))).take ml ++
          "...[truncated]".data := by
    intro s ml h
    rw [show sanitize_for_logging (some s) ml =
        if ml < (stripAnsi (replaceCR (replaceLF (replaceCRLF s)))).length then
          (stripAnsi (replaceCR (replaceLF (replaceCRLF s)))).take ml ++
            "...[truncated]".data
        else stripAnsi (replaceCR (replaceLF (replaceCRLF s))) from rfl,
      if_pos h]
  have hlen : (List.replicate 2000 'x' : List Char).length = 2000 :=
    List.length_replicate 2000 'x'
  have hcond :
      1000 < (stripAnsi (replaceCR (replaceLF (replaceCRLF (List.replicate 2000 'x'))))).length := by
    rw [replicate_x_pipeline, hlen]
    omega
  have heq := hgen (List.replicate 2000 'x') 1000 hcond
  rw [replicate_x_pipeline] at heq
  refine ⟨hgen, ?_, ?_⟩
  · rw [heq, List.length_append, List.length_take, hlen]
    omega
  · exact ⟨_, heq.symm⟩

/-- Witness for C6: the 2000-character input is longer than the limit
after the escaping passes, and the sanitizer output is the truncated
head plus the fixed suffix. -/
theorem sanitize_truncates_witness :
    1000 < (stripAnsi (replaceCR (replaceLF (replaceCRLF (List.replicate 2000 'x'))))).length ∧
    sanitize_for_logging (some (List.replicate 2000 'x')) 1000 =
      (stripAnsi (replaceCR (replaceLF (replaceCRLF (List.replicate 2000 'x'))))).take 1000 ++
        "...[truncated]".data := by
  have hcond :
      1000 < (stripAnsi (replaceCR (replaceLF (replaceCRLF (List.replicate 2000 'x'))))).length := by
    rw [replicate_x_pipeline, List.length_replicate]
    omega
  exact ⟨hcond, sanitize_truncates.1 (List.replicate 2000 'x') 1000 hcond⟩
